import Mathlib

/-!
Verification of the response-normalization core of a read-only Google
Workspace MCP server (mail MIME extraction, HTML stripping, docs heading
extraction, slide summaries, truncation/size formatting, identity
resolution and the operation handlers' error envelopes).

JavaScript strings are modelled as lists of characters (`Str`); JS
truthiness of optional strings (null/undefined/"" are falsy) is made
explicit.  Byte sequences are lists of naturals below 256.
-/

/-- JS strings, modelled as character lists. -/
abbrev Str := List Char

/-- Truthiness of a JS `string | null | undefined` value:
null, undefined and the empty string are falsy. -/
def optStrTruthy : Option Str → Bool
  | none => false
  | some s => !s.isEmpty

/-- JS `x || y` on strings: keep `x` unless it is empty. -/
def orElseStr (x y : Str) : Str :=
  if x.isEmpty then y else x

/-- JS `x || null` on an optional string: empty collapses to null. -/
def jsOrNone : Option Str → Option Str
  | some (c :: cs) => some (c :: cs)
  | _ => none

/-- Whitespace as matched by the JS regex class and by trim
(ASCII whitespace plus no-break space). -/
def jsWs (c : Char) : Bool :=
  c = ' ' || c = '\t' || c = '\n' || c = '\r' ||
  c = Char.ofNat 11 || c = Char.ofNat 12 || c = Char.ofNat 0xA0

/-- JS String.prototype.trim. -/
def jsTrim (s : Str) : Str :=
  ((s.dropWhile jsWs).reverse.dropWhile jsWs).reverse

/-- ASCII lower-casing of a string (models toLowerCase on the inputs used). -/
def lcStr (s : Str) : Str := s.map Char.toLower

/-- Decimal digits of a natural number. -/
def natStr (n : Nat) : Str := Nat.toDigits 10 n

/-- Insert a comma after every three (reversed) digits; helper for
`toLocaleStringNat`. -/
def groupThrees : Str → Str
  | d1 :: d2 :: d3 :: d4 :: rest => d1 :: d2 :: d3 :: ',' :: groupThrees (d4 :: rest)
  | l => l

/-- Models Number.prototype.toLocaleString for a natural number under the
default en-US locale: decimal digits with thousands separators. -/
def toLocaleStringNat (n : Nat) : Str :=
  (groupThrees (natStr n).reverse).reverse

/-- Value of a decimal digit string. -/
def natFromDigits (ds : Str) : Nat :=
  ds.foldl (fun a c => a * 10 + (c.toNat - 48)) 0

/-- JS parseInt(s, 10): skip leading whitespace, optional sign, then the
longest run of leading digits; NaN (none) when no digit is found. -/
def parseIntJS (s : Str) : Option Int :=
  let s1 := s.dropWhile jsWs
  let (neg, s2) : Bool × Str :=
    match s1 with
    | '-' :: r => (true, r)
    | '+' :: r => (false, r)
    | r => (false, r)
  let digits := s2.takeWhile (fun c => '0' ≤ c && c ≤ '9')
  if digits.isEmpty then none
  else
    let v : Int := Int.ofNat (natFromDigits digits)
    some (if neg then -v else v)

/-- JS String.prototype.replace with a plain (case-sensitive) string
pattern: replaces the first occurrence only. -/
def replaceFirstStr (pat rep : Str) : Str → Str
  | [] => []
  | c :: rest =>
    if pat.isPrefixOf (c :: rest) then rep ++ (c :: rest).drop pat.length
    else c :: replaceFirstStr pat rep rest

-- ── Base64 (Node Buffer semantics) ──────────────────────────────────────

/-- The character substitution performed by decodeBase64Url before
standard decoding: URL-safe characters mapped back to the standard set. -/
def urlFix (c : Char) : Char :=
  if c = '-' then '+' else if c = '_' then '/' else c

/-- Value of a standard base64 alphabet character; none for characters
outside the alphabet (Node's decoder skips those). -/
def b64CharToSextet (c : Char) : Option Nat :=
  if 'A' ≤ c && c ≤ 'Z' then some (c.toNat - 65)
  else if 'a' ≤ c && c ≤ 'z' then some (c.toNat - 97 + 26)
  else if '0' ≤ c && c ≤ '9' then some (c.toNat - 48 + 52)
  else if c = '+' then some 62
  else if c = '/' then some 63
  else none

/-- Repack six-bit groups into bytes, dropping a trailing incomplete
byte, as Node's base64 decoder does. -/
def sextetsToBytes : List Nat → List Nat
  | s0 :: s1 :: s2 :: s3 :: rest =>
    (s0 * 4 + s1 / 16) :: ((s1 % 16) * 16 + s2 / 4) :: ((s2 % 4) * 64 + s3) ::
      sextetsToBytes rest
  | [s0, s1, s2] => [s0 * 4 + s1 / 16, (s1 % 16) * 16 + s2 / 4]
  | [s0, s1] => [s0 * 4 + s1 / 16]
  | [_] => []
  | [] => []

/-- Models Buffer.from(s, "base64"): decoding stops at the first '='
padding character; before that point, characters outside the alphabet
are skipped and the rest are decoded six bits at a time. -/
def base64DecodeBytes (s : Str) : List Nat :=
  sextetsToBytes ((s.takeWhile (fun c => c != '=')).filterMap b64CharToSextet)

/-- Split bytes into six-bit groups (RFC 4648, no padding). -/
def bytesToSextets : List Nat → List Nat
  | b0 :: b1 :: b2 :: rest =>
    (b0 / 4) :: ((b0 % 4) * 16 + b1 / 16) :: ((b1 % 16) * 4 + b2 / 64) ::
      (b2 % 64) :: bytesToSextets rest
  | [b0, b1] => [b0 / 4, (b0 % 4) * 16 + b1 / 16, (b1 % 16) * 4]
  | [b0] => [b0 / 4, (b0 % 4) * 16]
  | [] => []

/-- URL-safe base64 alphabet (RFC 4648 section 5). -/
def sextetToB64UrlChar (s : Nat) : Char :=
  if s < 26 then Char.ofNat (65 + s)
  else if s < 52 then Char.ofNat (97 + (s - 26))
  else if s < 62 then Char.ofNat (48 + (s - 52))
  else if s = 62 then '-'
  else '_'

/-- URL-safe, unpadded base64 encoding of a byte sequence (the encoding
Gmail applies to body data; the spec's reference encoder). -/
def encodeBase64Url (bytes : List Nat) : Str :=
  (bytesToSextets bytes).map sextetToB64UrlChar

-- ── UTF-8 decoding (Node toString("utf-8") semantics) ───────────────────

/-- Is a byte a UTF-8 continuation byte. -/
def isCont (b : Nat) : Bool := 0x80 ≤ b && b < 0xC0

/-- Fuel-driven body of `utf8Decode`; each step consumes at least one
byte, so fuel equal to the input length suffices. -/
def utf8DecodeF : Nat → List Nat → Str
  | 0, _ => []
  | _ + 1, [] => []
  | fuel + 1, b0 :: rest =>
    if b0 < 0x80 then Char.ofNat b0 :: utf8DecodeF fuel rest
    else if b0 < 0xC2 then Char.ofNat 0xFFFD :: utf8DecodeF fuel rest
    else if b0 < 0xE0 then
      match rest with
      | b1 :: rest2 =>
        if isCont b1 then
          Char.ofNat ((b0 - 0xC0) * 64 + (b1 - 0x80)) :: utf8DecodeF fuel rest2
        else Char.ofNat 0xFFFD :: utf8DecodeF fuel rest
      | [] => [Char.ofNat 0xFFFD]
    else if b0 < 0xF0 then
      match rest with
      | b1 :: b2 :: rest3 =>
        if isCont b1 && isCont b2 &&
            !(decide (b0 = 0xE0) && decide (b1 < 0xA0)) &&
            !(decide (b0 = 0xED) && decide (0xA0 ≤ b1)) then
          Char.ofNat ((b0 - 0xE0) * 4096 + (b1 - 0x80) * 64 + (b2 - 0x80)) ::
            utf8DecodeF fuel rest3
        else Char.ofNat 0xFFFD :: utf8DecodeF fuel rest
      | _ => Char.ofNat 0xFFFD :: utf8DecodeF fuel rest
    else if b0 < 0xF5 then
      match rest with
      | b1 :: b2 :: b3 :: rest4 =>
        if isCont b1 && isCont b2 && isCont b3 &&
            !(decide (b0 = 0xF0) && decide (b1 < 0x90)) &&
            !(decide (b0 = 0xF4) && decide (0x90 ≤ b1)) then
          Char.ofNat ((b0 - 0xF0) * 262144 + (b1 - 0x80) * 4096 +
            (b2 - 0x80) * 64 + (b3 - 0x80)) :: utf8DecodeF fuel rest4
        else Char.ofNat 0xFFFD :: utf8DecodeF fuel rest
      | _ => Char.ofNat 0xFFFD :: utf8DecodeF fuel rest
    else Char.ofNat 0xFFFD :: utf8DecodeF fuel rest

/-- Models Buffer.prototype.toString("utf-8"): WHATWG-style decoding,
malformed sequences become U+FFFD replacement characters. -/
def utf8Decode (bs : List Nat) : Str := utf8DecodeF bs.length bs

/-- decodeBase64Url from src/src/utils.ts: substitute the URL-safe
characters back, base64-decode, then interpret the bytes as UTF-8 text. -/
def decodeBase64Url (data : Str) : Str :=
  utf8Decode (base64DecodeBytes (data.map urlFix))

-- ── Gmail MIME model (src/src/utils.ts) ─────────────────────────────────

/-- A Gmail message header (Schema MessagePartHeader). -/
structure Header where
  name : Option Str
  value : Option Str
deriving DecidableEq

/-- Schema MessagePartBody: attachment handle, byte size, inline data. -/
structure MessageBody where
  attachmentId : Option Str
  size : Option Nat
  data : Option Str
deriving DecidableEq

/-- Schema MessagePart: a recursive MIME-tree node.  The nested list of
child parts makes this an inductive rather than a structure. -/
inductive MessagePart where
  | mk (mimeType : Option Str) (filename : Option Str)
       (headers : Option (List Header)) (body : Option MessageBody)
       (parts : Option (List MessagePart))

/-- An attachment descriptor recorded by the MIME walk. -/
structure AttachmentInfo where
  filename : Str
  mimeType : Str
  size : Nat
  attachmentId : Option Str
deriving DecidableEq

/-- The ParsedEmail view produced by extractEmailBody. -/
structure ParsedEmail where
  textBody : Option Str
  htmlBody : Option Str
  attachments : List AttachmentInfo
deriving DecidableEq

mutual

/-- The walkParts closure of extractEmailBody, with the mutable result
record threaded explicitly.  Mirrors the source's classification order:
non-empty filename first (attachment, no descent), then non-empty child
list (container, recurse), then truthy inline body data (leaf). -/
def walkParts (part : MessagePart) (st : ParsedEmail) : ParsedEmail :=
  match part with
  | .mk mimeType? filename? _ body? parts? =>
    if optStrTruthy filename? then
      { st with attachments := st.attachments ++
          [{ filename := filename?.getD []
             mimeType := mimeType?.getD []
             size := (body?.bind (·.size)).getD 0
             attachmentId := jsOrNone (body?.bind (·.attachmentId)) }] }
    else
      match parts? with
      | some (p :: ps) => walkList (p :: ps) st
      | _ =>
        match body?.bind (·.data) with
        | some (c :: cs) =>
          if mimeType?.getD [] = "text/plain".toList ∧
              optStrTruthy st.textBody = false
          then { st with textBody := some (decodeBase64Url (c :: cs)) }
          else if mimeType?.getD [] = "text/html".toList ∧
              optStrTruthy st.htmlBody = false
          then { st with htmlBody := some (decodeBase64Url (c :: cs)) }
          else st
        | _ => st

/-- The source's for-loop over sub-parts. -/
def walkList (parts : List MessagePart) (st : ParsedEmail) : ParsedEmail :=
  match parts with
  | [] => st
  | p :: ps => walkList ps (walkParts p st)

end

/-- extractEmailBody from src/src/utils.ts. -/
def extractEmailBody (payload : MessagePart) : ParsedEmail :=
  walkParts payload { textBody := none, htmlBody := none, attachments := [] }

mutual

/-- Specification view: the decoded data of every leaf of the given MIME
type, in depth-first left-to-right order, with attachment nodes (and
everything below them) excluded and container nodes contributing only
their children. -/
def leafDatas (mt : Str) (part : MessagePart) : List Str :=
  match part with
  | .mk mimeType? filename? _ body? parts? =>
    if optStrTruthy filename? then []
    else
      match parts? with
      | some (p :: ps) => leafDatasList mt (p :: ps)
      | _ =>
        match body?.bind (·.data) with
        | some (c :: cs) =>
          if mimeType?.getD [] = mt then [decodeBase64Url (c :: cs)] else []
        | _ => []

/-- leafDatas over a list of sibling parts. -/
def leafDatasList (mt : Str) (parts : List MessagePart) : List Str :=
  match parts with
  | [] => []
  | p :: ps => leafDatas mt p ++ leafDatasList mt ps

end

mutual

/-- Specification view: attachment descriptors in depth-first order; an
attachment node is recorded and not descended into. -/
def collectAtts (part : MessagePart) : List AttachmentInfo :=
  match part with
  | .mk mimeType? filename? _ body? parts? =>
    if optStrTruthy filename? then
      [{ filename := filename?.getD []
         mimeType := mimeType?.getD []
         size := (body?.bind (·.size)).getD 0
         attachmentId := jsOrNone (body?.bind (·.attachmentId)) }]
    else
      match parts? with
      | some (p :: ps) => collectAttsList (p :: ps)
      | _ => []

/-- collectAtts over a list of sibling parts. -/
def collectAttsList (parts : List MessagePart) : List AttachmentInfo :=
  match parts with
  | [] => []
  | p :: ps => collectAtts p ++ collectAttsList ps

end

/-- How one body slot evolves over the matching leaves it meets: a falsy
slot (null or empty) is overwritten, a non-empty slot is kept. -/
def foldUpd (o : Option Str) (ds : List Str) : Option Str :=
  ds.foldl (fun a d => if optStrTruthy a then a else some d) o

/-- Specification view of the final body slot: the first matching leaf
whose decoded content is non-empty wins; if every matching leaf decodes
to the empty string the slot holds the empty string; with no matching
leaf at all it stays null. -/
def firstNonEmptyOr (ds : List Str) : Option Str :=
  match ds.find? (fun d => !d.isEmpty) with
  | some d => some d
  | none => if ds.isEmpty then none else some []

-- ── Base64 roundtrip lemmas ─────────────────────────────────────────────

/-- Each URL-safe alphabet character maps back to its sextet after the
substitution step. -/
theorem sextet_char_roundtrip :
    ∀ s : Fin 64, b64CharToSextet (urlFix (sextetToB64UrlChar s.val)) = some s.val := by
  decide

/-- Every sextet produced from in-range bytes is below 64. -/
theorem bytesToSextets_lt : ∀ (bs : List Nat), (∀ b ∈ bs, b < 256) →
    ∀ s ∈ bytesToSextets bs, s < 64 := by
  intro bs
  induction bs using bytesToSextets.induct with
  | case1 b0 b1 b2 rest ih =>
    intro h s hs
    have hb0 : b0 < 256 := h _ (by simp)
    have hb1 : b1 < 256 := h _ (by simp)
    have hb2 : b2 < 256 := h _ (by simp)
    simp only [bytesToSextets, List.mem_cons] at hs
    rcases hs with rfl | rfl | rfl | rfl | hs
    · omega
    · omega
    · omega
    · omega
    · exact ih (fun b hb => h b (by simp [hb])) s hs
  | case2 b0 b1 =>
    intro h s hs
    have hb0 : b0 < 256 := h _ (by simp)
    have hb1 : b1 < 256 := h _ (by simp)
    simp only [bytesToSextets, List.mem_cons, List.not_mem_nil, or_false] at hs
    rcases hs with rfl | rfl | rfl <;> omega
  | case3 b0 =>
    intro h s hs
    have hb0 : b0 < 256 := h _ (by simp)
    simp only [bytesToSextets, List.mem_cons, List.not_mem_nil, or_false] at hs
    rcases hs with rfl | rfl <;> omega
  | case4 =>
    intro _ s hs
    simp [bytesToSextets] at hs

/-- Regrouping sextets back into bytes undoes the split. -/
theorem sextets_bytes_roundtrip : ∀ (bs : List Nat), (∀ b ∈ bs, b < 256) →
    sextetsToBytes (bytesToSextets bs) = bs := by
  intro bs
  induction bs using bytesToSextets.induct with
  | case1 b0 b1 b2 rest ih =>
    intro h
    have hb0 : b0 < 256 := h _ (by simp)
    have hb1 : b1 < 256 := h _ (by simp)
    have hb2 : b2 < 256 := h _ (by simp)
    simp only [bytesToSextets, sextetsToBytes]
    rw [ih (fun b hb => h b (by simp [hb]))]
    congr 1
    · omega
    congr 1
    · omega
    congr 1
    omega
  | case2 b0 b1 =>
    intro h
    have hb0 : b0 < 256 := h _ (by simp)
    have hb1 : b1 < 256 := h _ (by simp)
    simp only [bytesToSextets, sextetsToBytes]
    congr 1
    · omega
    congr 1
    omega
  | case3 b0 =>
    intro h
    have hb0 : b0 < 256 := h _ (by simp)
    simp only [bytesToSextets, sextetsToBytes]
    congr 1
    omega
  | case4 => intro _; rfl

/-- Encoding to characters and reading the characters back is the
identity on sextet lists. -/
theorem sextetList_char_roundtrip : ∀ (l : List Nat), (∀ s ∈ l, s < 64) →
    ((l.map sextetToB64UrlChar).map urlFix).filterMap b64CharToSextet = l := by
  intro l
  induction l with
  | nil => intro _; rfl
  | cons s rest ih =>
    intro h
    have hs : s < 64 := h _ (by simp)
    have := sextet_char_roundtrip ⟨s, hs⟩
    simp only [List.map_cons, List.filterMap_cons, this]
    rw [ih (fun x hx => h x (by simp [hx]))]

/-- A list all of whose elements satisfy the predicate is untouched by
takeWhile. -/
theorem takeWhile_of_all {α : Type} (p : α → Bool) :
    ∀ l : List α, (∀ a ∈ l, p a = true) → l.takeWhile p = l := by
  intro l
  induction l with
  | nil => intro _; rfl
  | cons a rest ih =>
    intro h
    rw [List.takeWhile_cons, if_pos (h a (by simp))]
    rw [ih (fun x hx => h x (by simp [hx]))]

/-- No character of the URL-safe alphabet maps to the padding character,
even after the URL-safe substitution. -/
theorem sextet_char_ne_pad : ∀ s : Fin 64,
    (urlFix (sextetToB64UrlChar s.val) != '=') = true := by
  decide

/-- The URL-safe substitution neither creates nor destroys padding
characters. -/
theorem urlFix_pad (c : Char) : (urlFix c != '=') = (c != '=') := by
  unfold urlFix
  split_ifs with h1 h2
  · subst h1; decide
  · subst h2; decide
  · rfl

/-- Mapping the URL-safe substitution commutes with cutting at the first
padding character. -/
theorem map_urlFix_takeWhile : ∀ s : Str,
    (s.map urlFix).takeWhile (fun c => c != '=') =
      (s.takeWhile (fun c => c != '=')).map urlFix := by
  intro s
  induction s with
  | nil => rfl
  | cons c rest ih =>
    simp only [List.map_cons, List.takeWhile_cons, urlFix_pad]
    by_cases h : (c != '=') = true
    · rw [if_pos h, if_pos h, List.map_cons, ih]
    · rw [if_neg h, if_neg h]
      rfl

/-- C2 (counterexample): decodeBase64Url is NOT a left inverse of the
URL-safe encoding on arbitrary byte sequences.  For the single byte 0x80
(not valid UTF-8), the final toString("utf-8") step turns the decoded
byte into the U+FFFD replacement character, so the original byte
sequence is not returned. -/
theorem decodeBase64Url_not_leftInverse_on_bytes :
    decodeBase64Url (encodeBase64Url [128]) = [Char.ofNat 0xFFFD] ∧
    ((decodeBase64Url (encodeBase64Url [128])).map Char.toNat ≠ [128]) := by
  decide

/-- C2 (amended): the base64 layer of decodeBase64Url — everything except
the final UTF-8 text conversion — is a left inverse of the URL-safe
base64 encoding on every byte sequence: substituting the URL-safe
characters back and base64-decoding the encoding of `bs` yields exactly
`bs`. -/
theorem decodeBase64Url_byte_leftInverse (bs : List Nat)
    (h : ∀ b ∈ bs, b < 256) :
    base64DecodeBytes ((encodeBase64Url bs).map urlFix) = bs := by
  unfold base64DecodeBytes encodeBase64Url
  have hall : ∀ c ∈ ((bytesToSextets bs).map sextetToB64UrlChar).map urlFix,
      (c != '=') = true := by
    intro c hc
    simp only [List.mem_map] at hc
    obtain ⟨a, ⟨x, hx, rfl⟩, rfl⟩ := hc
    exact sextet_char_ne_pad ⟨x, bytesToSextets_lt bs h x hx⟩
  rw [takeWhile_of_all _ _ hall]
  rw [sextetList_char_roundtrip _ (bytesToSextets_lt bs h)]
  exact sextets_bytes_roundtrip bs h

/-- Witness for the amended C2 theorem at the concrete byte sequence
[72, 105] ("Hi"). -/
theorem decodeBase64Url_byte_leftInverse_witness :
    (∀ b ∈ [72, 105], b < 256) ∧
    base64DecodeBytes ((encodeBase64Url [72, 105]).map urlFix) = [72, 105] :=
  ⟨by decide, decodeBase64Url_byte_leftInverse [72, 105] (by decide)⟩

-- ── extractEmailBody: walk characterisation ─────────────────────────────

/-- What one walk step leaves in the result record, phrased through the
specification views. -/
def partRes (st : ParsedEmail) (part : MessagePart) : ParsedEmail :=
  { textBody := foldUpd st.textBody (leafDatas "text/plain".toList part)
    htmlBody := foldUpd st.htmlBody (leafDatas "text/html".toList part)
    attachments := st.attachments ++ collectAtts part }

/-- `partRes` over a list of sibling parts. -/
def listRes (st : ParsedEmail) (l : List MessagePart) : ParsedEmail :=
  { textBody := foldUpd st.textBody (leafDatasList "text/plain".toList l)
    htmlBody := foldUpd st.htmlBody (leafDatasList "text/html".toList l)
    attachments := st.attachments ++ collectAttsList l }

/-- A truthy (non-empty) body slot is never overwritten. -/
theorem foldUpd_truthy : ∀ (ds : List Str) (o : Option Str),
    optStrTruthy o = true → foldUpd o ds = o := by
  intro ds
  induction ds with
  | nil => intro o _; rfl
  | cons d rest ih =>
    intro o h
    simp only [foldUpd, List.foldl_cons, h, if_true]
    exact ih o h

/-- A falsy body slot after the walk holds the first non-empty decoded
content, or the empty string if only empty contents were seen. -/
theorem foldUpd_falsy : ∀ (ds : List Str) (o : Option Str),
    optStrTruthy o = false →
    foldUpd o ds = (match ds.find? (fun d => !d.isEmpty) with
      | some d => some d
      | none => if ds.isEmpty then o else some []) := by
  intro ds
  induction ds with
  | nil => intro o _; rfl
  | cons d rest ih =>
    intro o h
    cases d with
    | nil =>
      have hih := ih (some []) rfl
      simp only [foldUpd, List.foldl_cons, h, Bool.false_eq_true, if_false]
      change foldUpd (some []) rest = _
      rw [hih]
      simp only [List.find?, List.isEmpty_nil, Bool.not_true, List.isEmpty_cons]
      cases hfind : rest.find? (fun d => !d.isEmpty) with
      | some d' => simp
      | none => simp
    | cons x xs =>
      simp only [foldUpd, List.foldl_cons, h, Bool.false_eq_true, if_false]
      change foldUpd (some (x :: xs)) rest = _
      rw [foldUpd_truthy rest (some (x :: xs)) (by simp [optStrTruthy])]
      simp [List.find?]

/-- Starting from a null slot, the walk computes `firstNonEmptyOr`. -/
theorem foldUpd_none (ds : List Str) : foldUpd none ds = firstNonEmptyOr ds := by
  rw [foldUpd_falsy ds none rfl]
  rfl

/-- The loop over sibling parts accumulates their specification views,
assuming the per-part characterisation on each member. -/
theorem walkList_spec (l : List MessagePart)
    (H : ∀ p ∈ l, ∀ st, walkParts p st = partRes st p) :
    ∀ st, walkList l st = listRes st l := by
  induction l with
  | nil =>
    intro st
    simp [walkList, listRes, leafDatasList, collectAttsList, foldUpd]
  | cons p ps ih =>
    intro st
    rw [walkList, H p (by simp) st]
    rw [ih (fun q hq st' => H q (by simp [hq]) st') (partRes st p)]
    simp only [listRes, partRes, leafDatasList, collectAttsList]
    refine ParsedEmail.mk.injEq _ _ _ _ _ _ ▸ ?_
    simp [foldUpd, List.foldl_append, List.append_assoc]


/-- One walk step matches the specification views, by strong induction
on the size of the MIME tree. -/
theorem walkParts_spec_aux : ∀ (n : Nat) (part : MessagePart),
    sizeOf part ≤ n → ∀ st, walkParts part st = partRes st part := by
  intro n
  induction n with
  | zero =>
    intro part h
    exfalso
    cases part with
    | mk mt fn hd bd ps => simp at h
  | succ n ih =>
    intro part hle st
    obtain ⟨stT, stH, stA⟩ := st
    cases part with
    | mk mt fn hd bd ps =>
      cases ps with
      | some l =>
        cases l with
        | cons p ps' =>
          cases hfn : optStrTruthy fn with
          | true =>
            simp [walkParts, partRes, leafDatas, collectAtts, hfn, foldUpd]
          | false =>
            have hsz : ∀ q ∈ p :: ps', sizeOf q ≤ n := by
              intro q hq
              have h1 := List.sizeOf_lt_of_mem hq
              simp at hle h1
              omega
            have hwl := walkList_spec (p :: ps')
              (fun q hq st' => ih q (hsz q hq) st')
              ⟨stT, stH, stA⟩
            simp only [walkParts, hfn, Bool.false_eq_true, if_false]
            rw [hwl]
            simp [listRes, partRes, leafDatas, collectAtts, hfn]
        | nil =>
          cases hfn : optStrTruthy fn with
          | true =>
            simp [walkParts, partRes, leafDatas, collectAtts, hfn, foldUpd]
          | false =>
            simp only [walkParts, partRes, leafDatas, collectAtts, hfn,
              Bool.false_eq_true, if_false]
            cases hbd : bd.bind (·.data) with
            | none => simp [foldUpd]
            | some d =>
              cases d with
              | nil => simp [foldUpd]
              | cons c cs =>
                split_ifs <;>
                  simp_all [foldUpd,
                    (by decide : ("text/plain".toList : Str) ≠ "text/html".toList)]
      | none =>
        cases hfn : optStrTruthy fn with
        | true =>
          simp [walkParts, partRes, leafDatas, collectAtts, hfn, foldUpd]
        | false =>
          simp only [walkParts, partRes, leafDatas, collectAtts, hfn,
            Bool.false_eq_true, if_false]
          cases hbd : bd.bind (·.data) with
          | none => simp [foldUpd]
          | some d =>
            cases d with
            | nil => simp [foldUpd]
            | cons c cs =>
              split_ifs <;>
                simp_all [foldUpd,
                  (by decide : ("text/plain".toList : Str) ≠ "text/html".toList)]

/-- One walk step matches the specification views. -/
theorem walkParts_spec (part : MessagePart) (st : ParsedEmail) :
    walkParts part st = partRes st part :=
  walkParts_spec_aux (sizeOf part) part (Nat.le_refl _) st

/-- C1 (counterexample): the first depth-first text/plain leaf of this
tree has truthy data "=" that decodes to the empty string, yet the
extracted plain body is "A", taken from a LATER text/plain leaf — so the
recorded body does not equal the decoded content of the first matching
leaf, and a later duplicate of the same type is not always ignored. -/
theorem extractEmailBody_first_leaf_counterexample :
    (extractEmailBody (.mk (some "multipart/mixed".toList) none none none
        (some [.mk (some "text/plain".toList) none none
                 (some { attachmentId := none, size := none,
                         data := some "=".toList }) none,
               .mk (some "text/plain".toList) none none
                 (some { attachmentId := none, size := none,
                         data := some "QQ".toList }) none]))).textBody
      = some "A".toList ∧
    decodeBase64Url "=".toList = [] ∧
    some "A".toList ≠ some ([] : Str) := by
  decide

/-- C1 (amended): for every MessagePart tree, extractEmailBody records
at most one plain and at most one HTML body; each equals the base64url
decoding of the first depth-first leaf of that exact MIME type whose
decoded content is non-empty (the empty string if every matching leaf
decodes to empty, null if there is none) — a leaf decoding to empty does
not block a later leaf of the same type; and the attachment list holds
exactly the nodes with a non-empty filename in depth-first order, which
contribute no body and are not descended into, regardless of depth. -/
theorem extractEmailBody_spec (payload : MessagePart) :
    (extractEmailBody payload).textBody =
      firstNonEmptyOr (leafDatas "text/plain".toList payload) ∧
    (extractEmailBody payload).htmlBody =
      firstNonEmptyOr (leafDatas "text/html".toList payload) ∧
    (extractEmailBody payload).attachments = collectAtts payload := by
  rw [extractEmailBody, walkParts_spec]
  refine ⟨foldUpd_none _, foldUpd_none _, ?_⟩
  simp [partRes]

-- ── truncate (src/src/utils.ts) ─────────────────────────────────────────

/-- The literal truncation notice appended by truncate. -/
def truncMarkerStr (maxLength : Nat) : Str :=
  "\n\n[... truncated at ".toList ++ toLocaleStringNat maxLength ++
    " characters]".toList

/-- truncate from src/src/utils.ts. -/
def truncate (text : Str) (maxLength : Nat := 50000) : Str :=
  if text.length ≤ maxLength then text
  else text.take maxLength ++ truncMarkerStr maxLength

/-- The truncation notice is never empty. -/
theorem truncMarkerStr_length (n : Nat) : 0 < (truncMarkerStr n).length := by
  simp [truncMarkerStr]

/-- C4: truncate returns the text unchanged when its length is within
the limit, otherwise the first maxLength characters followed by the
literal truncation marker noting the limit; and truncate is idempotent:
truncating an already-truncated text at the same limit is a no-op. -/
theorem truncate_spec (s : Str) (n : Nat) :
    truncate s n = (if s.length ≤ n then s else s.take n ++ truncMarkerStr n) ∧
    truncate (truncate s n) n = truncate s n := by
  refine ⟨rfl, ?_⟩
  by_cases h : s.length ≤ n
  · simp [truncate, h]
  · have hn : n ≤ s.length := by omega
    have hm := truncMarkerStr_length n
    have hlen : (s.take n ++ truncMarkerStr n).length =
        n + (truncMarkerStr n).length := by
      simp [List.length_append, List.length_take]
      omega
    have hts : truncate s n = s.take n ++ truncMarkerStr n := by
      rw [truncate, if_neg h]
    rw [hts, truncate, if_neg (by omega)]
    congr 1
    rw [List.take_append_eq_append_take]
    simp [List.length_take, List.take_take, Nat.min_def, hn]

-- ── stripHtml (src/src/utils.ts) ────────────────────────────────────────

/-- Case-insensitive ASCII prefix test (for the /i regex flags); the
pattern is supplied in lower case. -/
def startsWithCI (pat s : Str) : Bool :=
  lcStr (s.take pat.length) == pat

/-- One global-replace pass: at each position the matcher may consume a
non-empty prefix and emit a replacement (scanning resumes after it, and
replacements are never rescanned, as with a /g regex); otherwise the
character is kept.  Fuel-driven; every step shortens the input, so fuel
equal to the input length suffices. -/
def rewriteF (tryMatch : Str → Option (Str × Str)) : Nat → Str → Str
  | 0, s => s
  | _ + 1, [] => []
  | fuel + 1, c :: rest =>
    match tryMatch (c :: rest) with
    | some (rep, remainder) => rep ++ rewriteF tryMatch fuel remainder
    | none => c :: rewriteF tryMatch fuel rest

/-- Run one global-replace pass over a whole string. -/
def rewritePass (tryMatch : Str → Option (Str × Str)) (s : Str) : Str :=
  rewriteF tryMatch s.length s

/-- Suffix after the first (case-insensitive) occurrence of the closing
tag; none when it never occurs. -/
def dropThroughClose (close : Str) : Str → Option Str
  | [] => none
  | c :: rest =>
    if startsWithCI close (c :: rest) then some ((c :: rest).drop close.length)
    else dropThroughClose close rest

/-- Matcher for the script/style block regexes: the literal opening-tag
prefix, then non-greedily anything up to and including the first closing
tag; no match when no closing tag follows. -/
def tryBlock (tag : Str) (s : Str) : Option (Str × Str) :=
  if startsWithCI ('<' :: tag) s then
    match dropThroughClose ('<' :: '/' :: tag ++ ['>']) (s.drop (tag.length + 1)) with
    | some r => some ([], r)
    | none => none
  else none

/-- Matcher for the br regex: "<br", optional whitespace, optional "/",
then ">"; replaced by a newline. -/
def tryBr (s : Str) : Option (Str × Str) :=
  if startsWithCI "<br".toList s then
    match (s.drop 3).dropWhile jsWs with
    | '/' :: '>' :: r => some (['\n'], r)
    | '>' :: r => some (['\n'], r)
    | _ => none
  else none

/-- The block-level closing tags the source maps to newlines. -/
def closingTags : List Str :=
  ["</p>", "</div>", "</tr>", "</li>", "</h1>", "</h2>", "</h3>",
    "</h4>", "</h5>", "</h6>"].map String.toList

/-- Matcher for the closing-tag regex. -/
def tryClosing (s : Str) : Option (Str × Str) :=
  match closingTags.find? (fun pat => startsWithCI pat s) with
  | some pat => some (['\n'], s.drop pat.length)
  | none => none

/-- Matcher for the list-item regex: "<li", any run of characters other
than ">", then ">"; replaced by "- ". -/
def tryLi (s : Str) : Option (Str × Str) :=
  if startsWithCI "<li".toList s then
    match (s.drop 3).dropWhile (fun c => !(c == '>')) with
    | '>' :: r => some ("- ".toList, r)
    | _ => none
  else none

/-- Matcher for the generic tag regex: "<", at least one character other
than ">", then ">"; removed. -/
def tryTag (s : Str) : Option (Str × Str) :=
  match s with
  | '<' :: c :: rest =>
    if c == '>' then none
    else
      match (c :: rest).dropWhile (fun x => !(x == '>')) with
      | '>' :: r => some ([], r)
      | _ => none
  | _ => none

/-- Matcher for a literal, case-sensitive string pattern (the entity
replaces). -/
def tryLit (pat rep : Str) (s : Str) : Option (Str × Str) :=
  if pat.isPrefixOf s then some (rep, s.drop pat.length) else none

/-- Matcher for the newline-collapsing regex: a maximal run of three or
more newlines becomes exactly two. -/
def tryNl3 (s : Str) : Option (Str × Str) :=
  match s with
  | '\n' :: '\n' :: '\n' :: rest =>
    some (['\n', '\n'], rest.dropWhile (fun c => c == '\n'))
  | _ => none

/-- stripHtml from src/src/utils.ts: the same sequence of global
replaces — script and style blocks removed wholesale, line breaks and
block-level closing tags to newlines, list items to "- " prefixes, all
remaining tags stripped, the named entities decoded, runs of three or
more newlines collapsed to two — then trim. -/
def stripHtml (html : Str) : Str :=
  let s := rewritePass (tryBlock "script".toList) html
  let s := rewritePass (tryBlock "style".toList) s
  let s := rewritePass tryBr s
  let s := rewritePass tryClosing s
  let s := rewritePass tryLi s
  let s := rewritePass tryTag s
  let s := rewritePass (tryLit "&amp;".toList ['&']) s
  let s := rewritePass (tryLit "&lt;".toList ['<']) s
  let s := rewritePass (tryLit "&gt;".toList ['>']) s
  let s := rewritePass (tryLit "&quot;".toList ['"']) s
  let s := rewritePass (tryLit "&#39;".toList [Char.ofNat 39]) s
  let s := rewritePass (tryLit "&nbsp;".toList [' ']) s
  let s := rewritePass tryNl3 s
  jsTrim s

/-- getReadableBody from src/src/utils.ts: prefer the truthy plain body,
else strip the truthy HTML body, else a fixed placeholder. -/
def getReadableBody (parsed : ParsedEmail) : Str :=
  if optStrTruthy parsed.textBody then parsed.textBody.getD []
  else if optStrTruthy parsed.htmlBody then stripHtml (parsed.htmlBody.getD [])
  else "(No readable body content)".toList

/-- getHeader from src/src/utils.ts: case-insensitive lookup of a header
value; a missing header or missing value yields the empty string. -/
def getHeader (headers : Option (List Header)) (name : Str) : Str :=
  match headers with
  | none => []
  | some hs =>
    match hs.find? (fun h => match h.name with
      | some hn => lcStr hn == lcStr name
      | none => false) with
    | some h => h.value.getD []
    | none => []

/-- Round-half-up fixed-point division with one decimal digit; models
Number.prototype.toFixed(1) on the exact rational n / d. -/
def fixed1 (n d : Nat) : Str :=
  natStr ((n * 10 + d / 2) / d / 10) ++ ['.'] ++
    natStr ((n * 10 + d / 2) / d % 10)

/-- formatFileSize from src/src/utils.ts, restricted to the integer byte
counts the handlers pass it: null/undefined renders as "unknown size",
otherwise the largest unit of B/KB/MB/GB for which the value is below
1024, with one decimal place above bytes. -/
def formatFileSize (bytes : Option Nat) : Str :=
  match bytes with
  | none => "unknown size".toList
  | some n =>
    if n < 1024 then natStr n ++ " B".toList
    else if n < 1024 * 1024 then fixed1 n 1024 ++ " KB".toList
    else if n < 1024 * 1024 * 1024 then fixed1 n (1024 * 1024) ++ " MB".toList
    else fixed1 n (1024 * 1024 * 1024) ++ " GB".toList

set_option maxRecDepth 40000

/-- Readable-body selection as amended: the plain body only when present
and non-empty, else the stripped HTML body when present and non-empty,
else the fixed placeholder. -/
def readableSpec (parsed : ParsedEmail) : Str :=
  match parsed.textBody with
  | some (c :: cs) => c :: cs
  | _ =>
    match parsed.htmlBody with
    | some (c :: cs) => stripHtml (c :: cs)
    | _ => "(No readable body content)".toList

/-- C5 (counterexample): a ParsedEmail whose plain-text body is present
but empty: the claim says the plain body is returned unchanged whenever
one is present, but the code treats the empty string as absent and falls
back to the stripped HTML body instead. -/
theorem getReadableBody_present_empty_counterexample :
    getReadableBody
      { textBody := some []
        htmlBody := some "<b>hi</b>".toList
        attachments := [] } = "hi".toList ∧
    "hi".toList ≠ ([] : Str) := by
  decide

/-- C5 (amended): getReadableBody returns the plain-text body unchanged
when it is present and non-empty; when it is absent or empty and an HTML
body is present and non-empty, it returns that body passed through the
tag-stripping transform; when neither applies it returns the fixed
placeholder.  The second conjunct exercises the stripHtml pipeline
itself: script blocks dropped wholesale, line breaks and block closing
tags to newlines, list items to "- " prefixes, remaining tags stripped,
named entities decoded, newline runs collapsed, edges trimmed. -/
theorem getReadableBody_spec :
    (∀ parsed : ParsedEmail, getReadableBody parsed = readableSpec parsed) ∧
    stripHtml ("<div>Hello&nbsp;<b>world</b></div><script>bad</script>" ++
        "<ul><li>one</li><li>two</li></ul><br><br><br>End&amp;").toList =
      "Hello world\n- one\n- two\n\nEnd&".toList := by
  constructor
  · intro parsed
    obtain ⟨t, h, a⟩ := parsed
    cases t with
    | none =>
      cases h with
      | none => rfl
      | some hs => cases hs <;> rfl
    | some ts =>
      cases ts with
      | nil =>
        cases h with
        | none => rfl
        | some hs => cases hs <;> rfl
      | cons c cs => rfl
  · decide

-- ── Google Docs model (docs tool file) ──────────────────────────────────

/-- A text run inside a paragraph element. -/
structure TextRunD where
  content : Option Str
deriving DecidableEq

/-- Schema ParagraphElement: a text run, an inline object or a
horizontal rule (presence of the latter two modelled as flags). -/
structure ParagraphElement where
  textRun : Option TextRunD
  inlineObjectElement : Bool
  horizontalRule : Bool
deriving DecidableEq

/-- Schema ParagraphStyle, reduced to the named style field. -/
structure ParagraphStyle where
  namedStyleType : Option Str
deriving DecidableEq

/-- Schema Paragraph. -/
structure Paragraph where
  elements : Option (List ParagraphElement)
  paragraphStyle : Option ParagraphStyle
deriving DecidableEq

/-- Schema StructuralElement.  A table is modelled as its rows of cells,
each cell holding its own structural elements (the tableRows, tableCells
and content wrappers of the schema are collapsed into nested lists). -/
inductive StructuralElement where
  | mk (paragraph : Option Paragraph)
       (table : Option (List (List (List StructuralElement))))
       (sectionBreak : Bool)

/-- The paragraph field of a structural element. -/
def StructuralElement.paragraph : StructuralElement → Option Paragraph
  | .mk p _ _ => p

/-- Schema Body. -/
structure DocsBody where
  content : Option (List StructuralElement)

/-- extractParagraphText from the docs tool file: concatenate each text
run with truthy content; an inline object contributes the literal image
marker, a horizontal rule a newline-wrapped rule. -/
def extractParagraphText (paragraph : Paragraph) : Str :=
  match paragraph.elements with
  | none => []
  | some els =>
    els.foldl (fun text e =>
      if optStrTruthy (e.textRun.bind (·.content)) then
        text ++ (e.textRun.bind (·.content)).getD []
      else if e.inlineObjectElement then text ++ "[image]".toList
      else if e.horizontalRule then text ++ "\n---\n".toList
      else text) []

/-- A heading of the document outline. -/
structure Heading where
  level : Int
  text : Str
deriving DecidableEq

/-- extractHeadings from the docs tool file: scan only top-level
elements; for each paragraph whose truthy named style starts with the
heading prefix, parse the remainder of the style name with parseInt,
skipping NaN levels and headings whose text trims to empty. -/
def extractHeadings (body : Option DocsBody) : List Heading :=
  match body.bind (·.content) with
  | none => []
  | some content =>
    content.foldl (fun hs element =>
      match element.paragraph with
      | none => hs
      | some para =>
        match para.paragraphStyle.bind (·.namedStyleType) with
        | none => hs
        | some style =>
          if style.isEmpty then hs
          else if !("HEADING_".toList.isPrefixOf style) then hs
          else
            match parseIntJS (replaceFirstStr "HEADING_".toList [] style) with
            | none => hs
            | some level =>
              if (jsTrim (extractParagraphText para)).isEmpty then hs
              else hs ++ [{ level := level
                            text := jsTrim (extractParagraphText para) }]) []

/-- The heading one top-level element contributes, as the amended claim
words it: a paragraph whose named style starts with the heading prefix
and whose suffix begins with a parsable integer (JS parseInt semantics),
and whose extracted text is non-empty after trimming. -/
def headingOfElement (element : StructuralElement) : Option Heading :=
  match element.paragraph with
  | none => none
  | some para =>
    match para.paragraphStyle.bind (·.namedStyleType) with
    | none => none
    | some style =>
      if "HEADING_".toList.isPrefixOf style then
        match parseIntJS (style.drop 8) with
        | some level =>
          if (jsTrim (extractParagraphText para)).isEmpty then none
          else some { level := level
                      text := jsTrim (extractParagraphText para) }
        | none => none
      else none

/-- A push-style fold is a filterMap, given a pointwise description of
the loop body. -/
theorem foldl_push_filterMap {α β : Type} (step : List β → α → List β)
    (f : α → Option β)
    (hstep : ∀ acc x, step acc x =
      match f x with | some b => acc ++ [b] | none => acc) :
    ∀ (l : List α) (acc : List β), l.foldl step acc = acc ++ l.filterMap f := by
  intro l
  induction l with
  | nil => intro acc; simp
  | cons x xs ih =>
    intro acc
    rw [List.foldl_cons, hstep, List.filterMap_cons]
    cases f x with
    | some b => rw [ih]; simp
    | none => rw [ih]

/-- Dropping the matched prefix is all the first-occurrence replace does
when the pattern is already a prefix. -/
theorem replaceFirstStr_of_isPrefix (pat s : Str) (h : pat.isPrefixOf s = true)
    (hp : pat ≠ []) :
    replaceFirstStr pat [] s = s.drop pat.length := by
  cases s with
  | nil =>
    cases pat with
    | nil => exact absurd rfl hp
    | cons c cs => simp [List.isPrefixOf] at h
  | cons c cs => simp [replaceFirstStr, h]

/-- A paragraph element holding one plain text run. -/
def runOf (s : String) : ParagraphElement :=
  { textRun := some { content := some s.toList }
    inlineObjectElement := false
    horizontalRule := false }

/-- A paragraph with the given named style and a single text run. -/
def styledPara (style text : String) : Paragraph :=
  { elements := some [runOf text]
    paragraphStyle := some { namedStyleType := some style.toList } }

/-- The document body used by the C6 counterexample: one paragraph
styled HEADING_2x with text T. -/
def headingBody2x : DocsBody :=
  { content := some [.mk (some (styledPara "HEADING_2x" "T")) none false] }

/-- C6 (counterexample): the named style HEADING_2x has a non-numeric
suffix, which the claim says is skipped; but parseInt accepts the
leading digit, so the code emits a level-2 heading rather than skipping
the paragraph. -/
theorem extractHeadings_nonnumeric_suffix_counterexample :
    extractHeadings (some headingBody2x) =
      [{ level := 2, text := "T".toList }] ∧
    extractHeadings (some headingBody2x) ≠ [] := by
  decide

/-- The document body with a single HEADING_2 paragraph reading Scope. -/
def headingBodyScope : DocsBody :=
  { content := some [.mk (some (styledPara "HEADING_2" "Scope")) none false] }

/-- A body whose only element is a table holding a cell with a
HEADING_2 paragraph: heading extraction must not descend into it. -/
def headingBodyTableOnly : DocsBody :=
  { content := some [.mk none
      (some [[[.mk (some (styledPara "HEADING_2" "Hidden")) none false]]])
      false] }

/-- C6 (amended): extractHeadings scans only top-level paragraphs (it
never descends into tables) for a named style with the heading prefix;
the suffix is parsed with JS parseInt semantics, so a suffix whose
leading characters form an integer yields that integer as the level
(HEADING_2x gives level 2) and only suffixes with no parsable leading
integer are skipped, as are headings whose text is empty after trimming;
results carry the trimmed text in document order.  In particular a body
with no heading-styled paragraph (or with headings only inside tables)
yields the empty list, and a HEADING_2 paragraph reading Scope yields
level 2 with text Scope. -/
theorem extractHeadings_spec :
    (∀ body : Option DocsBody, extractHeadings body =
      ((body.bind (·.content)).getD []).filterMap headingOfElement) ∧
    extractHeadings (some headingBodyScope) =
      [{ level := 2, text := "Scope".toList }] ∧
    extractHeadings (some headingBodyTableOnly) = [] := by
  refine ⟨?_, by decide, by decide⟩
  intro body
  cases hb : body.bind (·.content) with
  | none => simp [extractHeadings, hb]
  | some content =>
    simp only [extractHeadings, hb, Option.getD_some]
    rw [foldl_push_filterMap _ headingOfElement]
    · simp
    intro acc element
    cases element with
    | mk para? table sb =>
      simp only [headingOfElement, StructuralElement.paragraph]
      cases para? with
      | none => rfl
      | some para =>
        dsimp only
        cases hsty : para.paragraphStyle.bind (·.namedStyleType) with
        | none => rfl
        | some style =>
          cases style with
          | nil => rfl
          | cons c cs =>
            simp only [List.isEmpty_cons, Bool.false_eq_true, if_false]
            cases hpre : "HEADING_".toList.isPrefixOf (c :: cs) with
            | false =>
              simp only [hpre, Bool.not_false, if_true, Bool.false_eq_true,
                if_false]
            | true =>
              rw [replaceFirstStr_of_isPrefix _ _ hpre (by decide)]
              simp only [hpre, Bool.not_true, Bool.false_eq_true, if_false]
              have h8 : ("HEADING_".toList).length = 8 := by decide
              rw [h8]
              cases parseIntJS ((c :: cs).drop 8) with
              | none => rfl
              | some level =>
                cases htr : (jsTrim (extractParagraphText para)).isEmpty <;>
                  simp [htr]

-- ── Google Slides model (src/src/tools/slides.ts) ───────────────────────

/-- Schema Placeholder, reduced to its role tag. -/
structure PlaceholderS where
  type : Option Str
deriving DecidableEq

/-- A text run of a Slides TextContent. -/
structure TextRunS where
  content : Option Str
deriving DecidableEq

/-- Schema TextElement: an entry of TextContent.textElements. -/
structure TextElementS where
  textRun : Option TextRunS
deriving DecidableEq

/-- Schema TextContent. -/
structure TextContent where
  textElements : Option (List TextElementS)
deriving DecidableEq

/-- Schema Shape, reduced to the fields the extractors read. -/
structure ShapeS where
  placeholder : Option PlaceholderS
  text : Option TextContent
deriving DecidableEq

/-- A Slides table cell. -/
structure TableCellS where
  text : Option TextContent
deriving DecidableEq

/-- A Slides table row. -/
structure TableRowS where
  tableCells : Option (List TableCellS)
deriving DecidableEq

/-- Schema Table. -/
structure TableS where
  tableRows : Option (List TableRowS)
deriving DecidableEq

/-- Schema PageElement: a shape, a table, a group of child elements or
word art.  The elementGroup field stands for elementGroup.children of
the schema (the wrapper object is collapsed). -/
inductive PageElement where
  | mk (shape : Option ShapeS) (table : Option TableS)
       (elementGroup : Option (List PageElement)) (wordArt : Option Str)

/-- The shape field of a page element. -/
def PageElement.shape : PageElement → Option ShapeS
  | .mk s _ _ _ => s

/-- Schema Page.  The notesPage field stands for the chain
slideProperties.notesPage of the schema (the wrapper is collapsed). -/
inductive Page where
  | mk (objectId : Option Str) (pageElements : Option (List PageElement))
       (notesPage : Option Page)

/-- The object id of a page. -/
def Page.objectId : Page → Option Str
  | .mk i _ _ => i

/-- The page elements of a page. -/
def Page.pageElements : Page → Option (List PageElement)
  | .mk _ e _ => e

/-- The associated notes page of a slide. -/
def Page.notesPage : Page → Option Page
  | .mk _ _ n => n

/-- extractTextFromTextContent from src/src/tools/slides.ts: concatenate
the truthy text-run contents, then trim. -/
def extractTextFromTextContent (textContent : Option TextContent) : Str :=
  match textContent.bind (·.textElements) with
  | none => []
  | some els =>
    jsTrim (els.foldl (fun parts el =>
      if optStrTruthy (el.textRun.bind (·.content)) then
        parts ++ (el.textRun.bind (·.content)).getD []
      else parts) [])

/-- The for-loop inside extractSpeakerNotes: at each element whose
placeholder role is BODY, return its extracted text if that text is
truthy, otherwise keep scanning. -/
def notesLoop : List PageElement → Str
  | [] => []
  | el :: rest =>
    if (el.shape.bind (·.placeholder)).bind (·.type) = some "BODY".toList then
      if (extractTextFromTextContent (el.shape.bind (·.text))).isEmpty then
        notesLoop rest
      else extractTextFromTextContent (el.shape.bind (·.text))
    else notesLoop rest

/-- extractSpeakerNotes from src/src/tools/slides.ts: scan the elements
of the associated notes page with `notesLoop`; empty when the slide has
no notes page or no elements match. -/
def extractSpeakerNotes (slide : Page) : Str :=
  match slide.notesPage with
  | none => []
  | some np =>
    match np.pageElements with
    | none => []
    | some els => notesLoop els

/-- The loop body of extractSlideSummary: keep the latest non-empty
title (TITLE or CENTERED_TITLE role) and subtitle (SUBTITLE role). -/
def titleStep (ts : Str × Str) (el : PageElement) : Str × Str :=
  if (el.shape.bind (·.placeholder)).bind (·.type) = some "TITLE".toList ∨
     (el.shape.bind (·.placeholder)).bind (·.type) =
       some "CENTERED_TITLE".toList then
    (orElseStr (extractTextFromTextContent (el.shape.bind (·.text))) ts.1, ts.2)
  else if (el.shape.bind (·.placeholder)).bind (·.type) =
      some "SUBTITLE".toList then
    (ts.1, orElseStr (extractTextFromTextContent (el.shape.bind (·.text))) ts.2)
  else ts

/-- extractSlideSummary from src/src/tools/slides.ts: fold the loop body
over the page elements, then append the optional title, subtitle and
notes segments to the slide position and id. -/
def extractSlideSummary (slide : Page) (index : Nat) : Str :=
  let ts :=
    match slide.pageElements with
    | none => (([] : Str), ([] : Str))
    | some els => els.foldl titleStep ([], [])
  "Slide ".toList ++ natStr (index + 1) ++ " (ID: ".toList ++
    (match slide.objectId with
     | some i => i
     | none => "undefined".toList) ++ [')'] ++
    (if ts.1.isEmpty then [] else ':' :: ' ' :: ts.1) ++
    (if ts.2.isEmpty then [] else ' ' :: '—' :: ' ' :: ts.2) ++
    (if extractSpeakerNotes slide ≠ [] then " [has notes]".toList else [])

/-- A text content holding one plain text run. -/
def textContentOf (text : String) : TextContent :=
  { textElements := some [{ textRun := some { content := some text.toList } }] }

/-- A page element holding one placeholder shape with one text run. -/
def shapeEl (role text : String) : PageElement :=
  .mk (some { placeholder := some { type := some role.toList }
              text := some (textContentOf text) })
    none none none

/-- A slide whose notes page has two BODY elements, the first with empty
text and the second reading hi. -/
def slideTwoBodies : Page :=
  .mk (some "s1".toList) none
    (some (.mk none (some [shapeEl "BODY" "", shapeEl "BODY" "hi"]) none))

/-- C7 (counterexample): the first BODY element of the notes page has
empty extracted text, so the claim says the empty string is returned;
the code keeps scanning past it and returns the text of a later BODY
element instead. -/
theorem extractSpeakerNotes_first_body_counterexample :
    extractTextFromTextContent ((shapeEl "BODY" "").shape.bind (·.text)) =
      [] ∧
    extractSpeakerNotes slideTwoBodies = "hi".toList ∧
    "hi".toList ≠ ([] : Str) := by
  decide

/-- The speaker-notes text one notes-page element contributes, as the
amended claim words it: a BODY-role element with non-empty extracted
text. -/
def bodyTextOf (el : PageElement) : Option Str :=
  if (el.shape.bind (·.placeholder)).bind (·.type) = some "BODY".toList then
    match extractTextFromTextContent (el.shape.bind (·.text)) with
    | [] => none
    | c :: cs => some (c :: cs)
  else none

/-- The notes-page loop returns the first BODY element whose extracted
text is non-empty, or the empty string. -/
theorem notesLoop_spec : ∀ els : List PageElement,
    notesLoop els = ((els.filterMap bodyTextOf).headD []) := by
  intro els
  induction els with
  | nil => rfl
  | cons el rest ih =>
    by_cases hrole :
        (el.shape.bind (·.placeholder)).bind (·.type) = some "BODY".toList
    · cases htxt : extractTextFromTextContent (el.shape.bind (·.text)) with
      | nil => simp [notesLoop, bodyTextOf, hrole, htxt, ih]
      | cons c cs => simp [notesLoop, bodyTextOf, hrole, htxt]
    · have hrole2 : ¬(((el.shape.bind (·.placeholder)).bind (·.type)) =
          some ['B', 'O', 'D', 'Y']) := hrole
      simp [notesLoop, bodyTextOf, hrole, hrole2, ih]

/-- C7 (amended): extractSpeakerNotes returns the extracted text of the
first element of the associated notes page whose placeholder role is
BODY and whose extracted text is non-empty; it returns the empty string
when no such element exists (in particular when the first BODY element
has empty text but a later one does not, the later text is returned). -/
theorem extractSpeakerNotes_spec (slide : Page) :
    extractSpeakerNotes slide =
      (match slide.notesPage with
       | none => []
       | some np => (((np.pageElements).getD []).filterMap bodyTextOf).headD []) := by
  cases slide with
  | mk oid pe np? =>
    cases np? with
    | none => rfl
    | some np =>
      dsimp only [extractSpeakerNotes, Page.notesPage]
      cases np with
      | mk a pels b =>
        cases pels with
        | none => rfl
        | some els =>
          dsimp only [Page.pageElements, Option.getD_some]
          exact notesLoop_spec els

/-- The title text one page element contributes to the summary: a TITLE
or CENTERED_TITLE placeholder with non-empty extracted text. -/
def titleTextOf (el : PageElement) : Option Str :=
  if (el.shape.bind (·.placeholder)).bind (·.type) = some "TITLE".toList ∨
     (el.shape.bind (·.placeholder)).bind (·.type) =
       some "CENTERED_TITLE".toList then
    match extractTextFromTextContent (el.shape.bind (·.text)) with
    | [] => none
    | c :: cs => some (c :: cs)
  else none

/-- The subtitle text one page element contributes to the summary: a
SUBTITLE placeholder with non-empty extracted text. -/
def subtitleTextOf (el : PageElement) : Option Str :=
  if (el.shape.bind (·.placeholder)).bind (·.type) = some "SUBTITLE".toList
  then
    match extractTextFromTextContent (el.shape.bind (·.text)) with
    | [] => none
    | c :: cs => some (c :: cs)
  else none

/-- The last element of a cons is the last of the tail, defaulting to
the head. -/
theorem getLast?_cons_eq {α : Type} (a : α) (l : List α) :
    (a :: l).getLast? = some ((l.getLast?).getD a) := by
  induction l generalizing a with
  | nil => rfl
  | cons b m ih =>
    rw [List.getLast?_cons_cons, ih b]
    rfl

/-- The summary fold keeps, per slot, the last non-empty contribution. -/
theorem titleFold_spec : ∀ (els : List PageElement) (t0 s0 : Str),
    els.foldl titleStep (t0, s0) =
      (((els.filterMap titleTextOf).getLast?).getD t0,
       ((els.filterMap subtitleTextOf).getLast?).getD s0) := by
  intro els
  induction els with
  | nil => intro t0 s0; rfl
  | cons el rest ih =>
    intro t0 s0
    rw [List.foldl_cons]
    by_cases hT :
        (el.shape.bind (·.placeholder)).bind (·.type) = some "TITLE".toList ∨
        (el.shape.bind (·.placeholder)).bind (·.type) =
          some "CENTERED_TITLE".toList
    · have hSne : ¬((el.shape.bind (·.placeholder)).bind (·.type) =
          some "SUBTITLE".toList) := by
        rcases hT with hT | hT <;> rw [hT] <;> decide
      have hstep : titleStep (t0, s0) el =
          (orElseStr (extractTextFromTextContent (el.shape.bind (·.text))) t0,
            s0) := by
        unfold titleStep
        rw [if_pos hT]
      have hSl : subtitleTextOf el = none := by
        unfold subtitleTextOf
        rw [if_neg hSne]
      rw [hstep, ih]
      cases htxt : extractTextFromTextContent (el.shape.bind (·.text)) with
      | nil =>
        have hTl : titleTextOf el = none := by
          unfold titleTextOf
          rw [if_pos hT, htxt]
        rw [List.filterMap_cons, List.filterMap_cons, hTl, hSl]
        rfl
      | cons c cs =>
        have hTl : titleTextOf el = some (c :: cs) := by
          unfold titleTextOf
          rw [if_pos hT, htxt]
        rw [List.filterMap_cons, List.filterMap_cons, hTl, hSl]
        dsimp only
        rw [getLast?_cons_eq]
        rfl
    · by_cases hS : (el.shape.bind (·.placeholder)).bind (·.type) =
          some "SUBTITLE".toList
      · have hstep : titleStep (t0, s0) el =
            (t0, orElseStr
              (extractTextFromTextContent (el.shape.bind (·.text))) s0) := by
          unfold titleStep
          rw [if_neg hT, if_pos hS]
        have hTl : titleTextOf el = none := by
          unfold titleTextOf
          rw [if_neg hT]
        rw [hstep, ih]
        cases htxt : extractTextFromTextContent (el.shape.bind (·.text)) with
        | nil =>
          have hSl : subtitleTextOf el = none := by
            unfold subtitleTextOf
            rw [if_pos hS, htxt]
          rw [List.filterMap_cons, List.filterMap_cons, hTl, hSl]
          rfl
        | cons c cs =>
          have hSl : subtitleTextOf el = some (c :: cs) := by
            unfold subtitleTextOf
            rw [if_pos hS, htxt]
          rw [List.filterMap_cons, List.filterMap_cons, hTl, hSl]
          dsimp only
          rw [getLast?_cons_eq]
          rfl
      · have hstep : titleStep (t0, s0) el = (t0, s0) := by
          unfold titleStep
          rw [if_neg hT, if_neg hS]
        have hTl : titleTextOf el = none := by
          unfold titleTextOf
          rw [if_neg hT]
        have hSl : subtitleTextOf el = none := by
          unfold subtitleTextOf
          rw [if_neg hS]
        rw [hstep, ih, List.filterMap_cons, List.filterMap_cons, hTl, hSl]

/-- getLast? only returns members of the list. -/
theorem getLast?_memOf {α : Type} : ∀ (l : List α) (a : α),
    l.getLast? = some a → a ∈ l := by
  intro l
  induction l with
  | nil => intro a h; simp at h
  | cons b m ih =>
    intro a h
    cases m with
    | nil =>
      simp at h
      simp [h]
    | cons c k =>
      rw [List.getLast?_cons_cons] at h
      exact List.mem_cons_of_mem _ (ih a h)

/-- A contributed title text is never empty. -/
theorem titleTextOf_ne_nil (el : PageElement) (t : Str)
    (h : titleTextOf el = some t) : t ≠ [] := by
  unfold titleTextOf at h
  split at h
  · cases htxt : extractTextFromTextContent (el.shape.bind (·.text)) with
    | nil => rw [htxt] at h; simp at h
    | cons c cs =>
      rw [htxt] at h
      simp at h
      rw [← h]
      simp
  · simp at h

/-- A contributed subtitle text is never empty. -/
theorem subtitleTextOf_ne_nil (el : PageElement) (t : Str)
    (h : subtitleTextOf el = some t) : t ≠ [] := by
  unfold subtitleTextOf at h
  split at h
  · cases htxt : extractTextFromTextContent (el.shape.bind (·.text)) with
    | nil => rw [htxt] at h; simp at h
    | cons c cs =>
      rw [htxt] at h
      simp at h
      rw [← h]
      simp
  · simp at h

/-- The notes page of the C8 demonstration slide. -/
def demoNotesPage : Page := .mk none (some [shapeEl "BODY" "talk slowly"]) none

/-- The C8 demonstration slide: id p1, one title run Intro, no subtitle,
notes reading talk slowly. -/
def demoSlide : Page :=
  .mk (some "p1".toList) (some [shapeEl "TITLE" "Intro"]) (some demoNotesPage)

/-- C8: for every slide and 0-based position, the summary is exactly
the slide position and id, followed by a colon-title segment only when
some TITLE or CENTERED_TITLE placeholder has non-empty text (the last
such text), an em-dash subtitle segment only when some SUBTITLE
placeholder has non-empty text (the last such text), and a has-notes
marker only when the speaker notes are non-empty; in particular the
demonstration slide yields exactly the claimed line. -/
theorem extractSlideSummary_spec :
    (∀ (slide : Page) (index : Nat),
      extractSlideSummary slide index =
        "Slide ".toList ++ natStr (index + 1) ++ " (ID: ".toList ++
          (match slide.objectId with
           | some i => i
           | none => "undefined".toList) ++ [')'] ++
          (match (((slide.pageElements).getD []).filterMap
              titleTextOf).getLast? with
           | some t => ':' :: ' ' :: t
           | none => []) ++
          (match (((slide.pageElements).getD []).filterMap
              subtitleTextOf).getLast? with
           | some t => ' ' :: '—' :: ' ' :: t
           | none => []) ++
          (if extractSpeakerNotes slide ≠ [] then " [has notes]".toList
           else [])) ∧
    extractSlideSummary demoSlide 0 =
      "Slide 1 (ID: p1): Intro [has notes]".toList := by
  constructor
  · intro slide index
    cases slide with
    | mk oid pe np =>
      cases pe with
      | none => rfl
      | some els =>
        unfold extractSlideSummary
        dsimp only [Page.pageElements, Page.objectId, Option.getD_some]
        rw [titleFold_spec els [] []]
        cases hTl : (els.filterMap titleTextOf).getLast? with
        | none =>
          cases hSl : (els.filterMap subtitleTextOf).getLast? with
          | none => rfl
          | some s =>
            obtain ⟨el, _, hel⟩ :=
              List.mem_filterMap.mp (getLast?_memOf _ _ hSl)
            have hs := subtitleTextOf_ne_nil el s hel
            cases s with
            | nil => exact absurd rfl hs
            | cons c cs => rfl
        | some t =>
          obtain ⟨el, _, hel⟩ :=
            List.mem_filterMap.mp (getLast?_memOf _ _ hTl)
          have ht := titleTextOf_ne_nil el t hel
          cases t with
          | nil => exact absurd rfl ht
          | cons c cs =>
            cases hSl : (els.filterMap subtitleTextOf).getLast? with
            | none => rfl
            | some s =>
              obtain ⟨el2, _, hel2⟩ :=
                List.mem_filterMap.mp (getLast?_memOf _ _ hSl)
              have hs := subtitleTextOf_ne_nil el2 s hel2
              cases s with
              | nil => exact absurd rfl hs
              | cons c2 cs2 => rfl
  · decide

-- ── Operation handlers (gmail tool file, src/src/auth.ts) ───────────────

/-- The headers field of a MIME part. -/
def MessagePart.headers : MessagePart → Option (List Header)
  | .mk _ _ h _ _ => h

/-- One item of a result envelope's content array. -/
inductive ContentItem where
  | text (text : Str)
  | image (data : Str) (mimeType : Str)
  | resource (uri : Str) (mimeType : Str) (blob : Str)
deriving DecidableEq

/-- The uniform result envelope handlers return; a missing isError field
is modelled as false. -/
structure Envelope where
  content : List ContentItem
  isError : Bool
deriving DecidableEq

/-- The configuration error thrown by getDefaultUserEmail. -/
def gwUserEmailMsg : Str :=
  ("GW_USER_EMAIL environment variable is not set. " ++
    "Set it in your .env file or pass userEmail explicitly.").toList

/-- getDefaultUserEmail from src/src/auth.ts: the process-wide default
identity from the GW_USER_EMAIL environment variable; throws when the
variable is unset or empty. -/
def getDefaultUserEmail (env : Option Str) : Except Str Str :=
  match env with
  | some (c :: cs) => .ok (c :: cs)
  | _ => .error gwUserEmailMsg

/-- The identity-resolution step at the top of every handler:
the explicit userEmail parameter if truthy, else the default. -/
def resolveUser (env userEmail : Option Str) : Except Str Str :=
  match userEmail with
  | some (c :: cs) => .ok (c :: cs)
  | _ => getDefaultUserEmail env

/-- A message reference from messages.list. -/
structure MsgRef where
  id : Option Str
deriving DecidableEq

/-- The data of a messages.list response. -/
structure ListResult where
  messages : Option (List MsgRef)
  resultSizeEstimate : Option Nat

/-- The data of a metadata-format messages.get response; payloadHeaders
stands for payload.headers. -/
structure MsgDetail where
  payloadHeaders : Option (List Header)
  snippet : Option Str

/-- The data of a full-format messages.get response. -/
structure FullMessage where
  payload : Option MessagePart
  labelIds : Option (List Str)

/-- The data of an attachments.get response. -/
structure AttachmentData where
  size : Option Nat
  data : Option Str

/-- The backend world a gmail handler runs against: the client creation
step and each awaited backend call, as its result or its thrown error. -/
structure GmailWorld where
  auth : Except Str Unit
  listMessages : Except Str ListResult
  getDetail : Str → Except Str MsgDetail
  getMessage : Str → Except Str FullMessage
  getAttachment : Str → Str → Except Str AttachmentData

/-- Array.prototype.join with a separator. -/
def joinSep (sep : Str) : List Str → Str
  | [] => []
  | [x] => x
  | x :: y :: rest => x ++ sep ++ joinSep sep (y :: rest)

/-- The per-message block of the search_emails result text. -/
def searchResultLine (id : Str) (detail : MsgDetail) : Str :=
  "📧 ".toList ++
    orElseStr (getHeader detail.payloadHeaders "Subject".toList)
      "(no subject)".toList ++
  "\n   ID: ".toList ++ id ++
  "\n   From: ".toList ++ getHeader detail.payloadHeaders "From".toList ++
  "\n   To: ".toList ++ getHeader detail.payloadHeaders "To".toList ++
  "\n   Date: ".toList ++ getHeader detail.payloadHeaders "Date".toList ++
  "\n   Preview: ".toList ++ (detail.snippet.getD [])

/-- The try-block of the search_emails handler. -/
def searchEmailsTry (env userEmail : Option Str) (query : Str)
    (w : GmailWorld) : Except Str Envelope := do
  let _resolvedEmail ← resolveUser env userEmail
  let _ ← w.auth
  let listResponse ← w.listMessages
  match listResponse.messages with
  | none =>
    pure { content := [.text ("No messages found for query: \"".toList ++
             query ++ ['"'])]
           isError := false }
  | some [] =>
    pure { content := [.text ("No messages found for query: \"".toList ++
             query ++ ['"'])]
           isError := false }
  | some (m :: ms) => do
    let results ← (m :: ms).foldlM (fun (acc : List Str) (msg : MsgRef) =>
      match msg.id with
      | some (c :: cs) => do
        let detail ← w.getDetail (c :: cs)
        pure (acc ++ [searchResultLine (c :: cs) detail])
      | _ => pure acc) []
    let total := match listResponse.resultSizeEstimate with
      | some (n + 1) => n + 1
      | _ => (m :: ms).length
    pure { content := [.text ("Found ".toList ++ natStr total ++
             " result(s) for query: \"".toList ++ query ++
             "\" (showing ".toList ++ natStr results.length ++
             "):\n\n".toList ++ joinSep "\n\n".toList results)]
           isError := false }

/-- The search_emails operation handler: the try-block, with the catch
converting any thrown error into the error envelope. -/
def search_emails (env userEmail : Option Str) (query : Str)
    (w : GmailWorld) : Envelope :=
  match searchEmailsTry env userEmail query w with
  | .ok e => e
  | .error message =>
    { content := [.text ("Error searching emails: ".toList ++ message)]
      isError := true }

/-- One attachment line of the get_email output. -/
def attachmentLine (att : AttachmentInfo) : Str :=
  "\n- ".toList ++ att.filename ++ " (".toList ++ att.mimeType ++
    ", ".toList ++ formatFileSize (some att.size) ++ [')'] ++
  (if optStrTruthy att.attachmentId then
    "\n  Attachment ID: ".toList ++ att.attachmentId.getD []
   else [])

/-- The attachments section of the get_email output. -/
def attachmentsSection (atts : List AttachmentInfo) : Str :=
  "\n\n--- Attachments (".toList ++ natStr atts.length ++ ") ---\n".toList ++
  "(Use get_email_attachment with the message ID and attachment ID to download)\n".toList ++
  atts.foldl (fun acc a => acc ++ attachmentLine a) []

/-- The try-block of the get_email handler. -/
def getEmailTry (env userEmail : Option Str) (messageId : Str)
    (w : GmailWorld) : Except Str Envelope := do
  let _resolvedEmail ← resolveUser env userEmail
  let _ ← w.auth
  let msg ← w.getMessage messageId
  let headers := msg.payload.bind (·.headers)
  let parsed := match msg.payload with
    | some p => extractEmailBody p
    | none => { textBody := none, htmlBody := none, attachments := [] }
  let cc := getHeader headers "Cc".toList
  let text :=
    "From: ".toList ++ getHeader headers "From".toList ++ ['\n'] ++
    "To: ".toList ++ getHeader headers "To".toList ++ ['\n'] ++
    (if cc.isEmpty then [] else "Cc: ".toList ++ cc ++ ['\n']) ++
    "Subject: ".toList ++
      orElseStr (getHeader headers "Subject".toList) "(no subject)".toList ++
      ['\n'] ++
    "Date: ".toList ++ getHeader headers "Date".toList ++ ['\n'] ++
    "Labels: ".toList ++ joinSep ", ".toList (msg.labelIds.getD []) ++
      ['\n'] ++
    "\n--- Body ---\n\n".toList ++ truncate (getReadableBody parsed)
  let text := text ++
    (if parsed.attachments.length > 0 then attachmentsSection parsed.attachments
     else [])
  pure { content := [.text text], isError := false }

/-- The get_email operation handler. -/
def get_email (env userEmail : Option Str) (messageId : Str)
    (w : GmailWorld) : Envelope :=
  match getEmailTry env userEmail messageId w with
  | .ok e => e
  | .error message =>
    { content := [.text ("Error getting email: ".toList ++ message)]
      isError := true }

/-- The content-type families treated as text by get_email_attachment. -/
def textTypes : List Str :=
  ["text/", "application/json", "application/xml", "application/javascript",
   "application/typescript", "application/x-yaml", "application/yaml",
   "application/csv", "application/sql"].map String.toList

/-- The try-block of the get_email_attachment handler.  The resource uri
carries the raw filename (encodeURIComponent is not modelled). -/
def getEmailAttachmentTry (env userEmail : Option Str)
    (messageId attachmentId : Str) (w : GmailWorld) : Except Str Envelope := do
  let _resolvedEmail ← resolveUser env userEmail
  let _ ← w.auth
  let msgResponse ← w.getMessage messageId
  let parsed := match msgResponse.payload with
    | some p => extractEmailBody p
    | none => { textBody := none, htmlBody := none, attachments := [] }
  let attachmentMeta := parsed.attachments.find?
    (fun att => att.attachmentId == some attachmentId)
  let filename := orElseStr
    (match attachmentMeta with | some m => m.filename | none => [])
    "attachment".toList
  let mimeType := orElseStr
    (match attachmentMeta with | some m => m.mimeType | none => [])
    "application/octet-stream".toList
  let attResponse ← w.getAttachment messageId attachmentId
  match attResponse.data with
  | some (c :: cs) =>
    let base64Data := (c :: cs).map urlFix
    if "image/".toList.isPrefixOf mimeType then
      pure { content := [
               .text ("Attachment: ".toList ++ filename ++ " (".toList ++
                 mimeType ++ ", ".toList ++ formatFileSize attResponse.size ++
                 [')']),
               .image base64Data mimeType]
             isError := false }
    else if textTypes.any (fun t => t.isPrefixOf mimeType) then
      pure { content := [
               .text ("Attachment: ".toList ++ filename ++ " (".toList ++
                 mimeType ++ ", ".toList ++ formatFileSize attResponse.size ++
                 ")\n\n".toList ++
                 truncate (utf8Decode (base64DecodeBytes base64Data)))]
             isError := false }
    else
      pure { content := [
               .text ("Attachment: ".toList ++ filename ++ " (".toList ++
                 mimeType ++ ", ".toList ++ formatFileSize attResponse.size ++
                 ")\n\nBinary file returned as base64-encoded resource below.".toList),
               .resource ("attachment:///".toList ++ messageId ++ ['/'] ++
                 filename) mimeType base64Data]
             isError := false }
  | _ =>
    pure { content := [.text "Attachment data is empty.".toList]
           isError := true }

/-- The get_email_attachment operation handler. -/
def get_email_attachment (env userEmail : Option Str)
    (messageId attachmentId : Str) (w : GmailWorld) : Envelope :=
  match getEmailAttachmentTry env userEmail messageId attachmentId w with
  | .ok e => e
  | .error message =>
    { content := [.text ("Error getting attachment: ".toList ++ message)]
      isError := true }

/-- A list is a prefix of itself followed by anything. -/
theorem isPrefixOf_append_self (l m : Str) : l.isPrefixOf (l ++ m) = true :=
  List.isPrefixOf_iff_prefix.mpr (List.prefix_append l m)

/-- Every successful result of the search_emails try-block is a
non-error envelope. -/
theorem searchEmailsTry_ok (env ue : Option Str) (q : Str) (w : GmailWorld)
    (e : Envelope) (h : searchEmailsTry env ue q w = .ok e) :
    e.isError = false := by
  unfold searchEmailsTry at h
  simp only [bind, Except.bind, pure, Except.pure] at h
  repeat' split at h
  all_goals injection h
  all_goals subst e
  all_goals rfl

/-- Every successful result of the get_email try-block is a non-error
envelope. -/
theorem getEmailTry_ok (env ue : Option Str) (mid : Str) (w : GmailWorld)
    (e : Envelope) (h : getEmailTry env ue mid w = .ok e) :
    e.isError = false := by
  unfold getEmailTry at h
  simp only [bind, Except.bind, pure, Except.pure] at h
  repeat' split at h
  all_goals injection h
  all_goals subst e
  all_goals rfl

/-- Every successful result of the get_email_attachment try-block is a
non-error envelope or the fixed empty-attachment-data guard envelope. -/
theorem getEmailAttachmentTry_ok (env ue : Option Str) (mid aid : Str)
    (w : GmailWorld) (e : Envelope)
    (h : getEmailAttachmentTry env ue mid aid w = .ok e) :
    e.isError = false ∨
      e = { content := [.text "Attachment data is empty.".toList]
            isError := true } := by
  unfold getEmailAttachmentTry at h
  simp only [bind, Except.bind, pure, Except.pure] at h
  repeat' split at h
  all_goals injection h
  all_goals subst e
  all_goals first
    | exact Or.inl rfl
    | exact Or.inr rfl

/-- A backend world in which every call succeeds with empty data. -/
def emptyWorld : GmailWorld :=
  { auth := .ok ()
    listMessages := .ok { messages := none, resultSizeEstimate := none }
    getDetail := fun _ => .ok { payloadHeaders := none, snippet := none }
    getMessage := fun _ => .ok { payload := none, labelIds := none }
    getAttachment := fun _ _ => .ok { size := none, data := none } }

/-- C9 (counterexample): the empty-attachment-data guard of
get_email_attachment returns an error envelope whose single text item is
the fixed sentence "Attachment data is empty.", which does not begin
with the claimed "Error <verb>-ing <noun>: <message>" phrase. -/
theorem attachment_guard_counterexample :
    get_email_attachment (some "admin@example.com".toList) none "m1".toList
        "a1".toList emptyWorld =
      { content := [.text "Attachment data is empty.".toList]
        isError := true } ∧
    "Error ".toList.isPrefixOf "Attachment data is empty.".toList = false := by
  decide

/-- C9 (amended): every failure path of the modelled handlers returns an
envelope with isError true carrying exactly one text content item; the
text of every thrown-error path begins with the operation's
"Error <verb>-ing <noun>: " phrase, while the one in-band guard path
(empty attachment data) carries the fixed text "Attachment data is
empty." instead; no exception crosses the handler boundary (each handler
is a total function into envelopes). -/
theorem error_envelopes_spec :
    (∀ (env ue : Option Str) (q : Str) (w : GmailWorld),
      (search_emails env ue q w).isError = true →
      ∃ t, (search_emails env ue q w).content = [.text t] ∧
        "Error searching emails: ".toList.isPrefixOf t = true) ∧
    (∀ (env ue : Option Str) (mid : Str) (w : GmailWorld),
      (get_email env ue mid w).isError = true →
      ∃ t, (get_email env ue mid w).content = [.text t] ∧
        "Error getting email: ".toList.isPrefixOf t = true) ∧
    (∀ (env ue : Option Str) (mid aid : Str) (w : GmailWorld),
      (get_email_attachment env ue mid aid w).isError = true →
      ∃ t, (get_email_attachment env ue mid aid w).content = [.text t] ∧
        ("Error getting attachment: ".toList.isPrefixOf t = true ∨
          t = "Attachment data is empty.".toList)) := by
  refine ⟨?_, ?_, ?_⟩
  · intro env ue q w herr
    cases hres : searchEmailsTry env ue q w with
    | ok e =>
      have hok := searchEmailsTry_ok env ue q w e hres
      unfold search_emails at herr
      rw [hres] at herr
      simp at herr
      rw [herr] at hok
      simp at hok
    | error m =>
      unfold search_emails
      rw [hres]
      exact ⟨_, rfl, isPrefixOf_append_self _ _⟩
  · intro env ue mid w herr
    cases hres : getEmailTry env ue mid w with
    | ok e =>
      have hok := getEmailTry_ok env ue mid w e hres
      unfold get_email at herr
      rw [hres] at herr
      simp at herr
      rw [herr] at hok
      simp at hok
    | error m =>
      unfold get_email
      rw [hres]
      exact ⟨_, rfl, isPrefixOf_append_self _ _⟩
  · intro env ue mid aid w herr
    cases hres : getEmailAttachmentTry env ue mid aid w with
    | ok e =>
      unfold get_email_attachment at herr ⊢
      rw [hres] at herr ⊢
      simp only at herr ⊢
      rcases getEmailAttachmentTry_ok env ue mid aid w e hres with hok | hg
      · rw [herr] at hok
        simp at hok
      · rw [hg]
        exact ⟨_, rfl, Or.inr rfl⟩
    | error m =>
      unfold get_email_attachment
      rw [hres]
      exact ⟨_, rfl, Or.inl (isPrefixOf_append_self _ _)⟩

/-- Witness for C9 at a concrete failing input: with no explicit
identity and no configured default, search_emails fails and wraps the
configuration error. -/
theorem error_envelopes_spec_witness :
    (search_emails none none "q1".toList emptyWorld).isError = true ∧
    (∃ t, (search_emails none none "q1".toList emptyWorld).content =
      [.text t] ∧ "Error searching emails: ".toList.isPrefixOf t = true) :=
  ⟨by decide, error_envelopes_spec.1 none none "q1".toList emptyWorld
    (by decide)⟩

/-- C10: identity resolution returns the explicitly supplied identity
when present (the parameter schema validates it as a non-empty email),
otherwise the process-wide default when it is set and non-empty,
otherwise it fails with the configuration error, whose text names the
missing GW_USER_EMAIL setting; and end to end, an operation invoked with
no identity parameter and no default configured returns an error
envelope naming the missing configuration rather than crashing. -/
theorem resolveIdentity_spec (env explicit : Option Str)
    (hval : explicit ≠ some []) :
    (∀ e, explicit = some e → resolveUser env explicit = .ok e) ∧
    (explicit = none → ∀ d, env = some d → d ≠ [] →
      resolveUser env none = .ok d) ∧
    (explicit = none → (env = none ∨ env = some []) →
      resolveUser env none = .error gwUserEmailMsg) ∧
    ("GW_USER_EMAIL".toList.isPrefixOf gwUserEmailMsg = true) ∧
    (∀ (q : Str) (w : GmailWorld), search_emails none none q w =
      { content := [.text ("Error searching emails: ".toList ++
          gwUserEmailMsg)]
        isError := true }) := by
  refine ⟨?_, ?_, ?_, by decide, ?_⟩
  · intro e he
    subst he
    cases e with
    | nil => exact absurd rfl hval
    | cons c cs => rfl
  · intro _ d hd hne
    subst hd
    cases d with
    | nil => exact absurd rfl hne
    | cons c cs => rfl
  · intro _ h
    rcases h with rfl | rfl <;> rfl
  · intro q w
    rfl

/-- Witness for C10 at concrete inputs: an explicit identity is
returned as-is, and the no-identity-no-default invocation yields the
configuration error envelope. -/
theorem resolveIdentity_spec_witness :
    (some "a@b".toList ≠ some ([] : Str)) ∧
    resolveUser none (some "a@b".toList) = .ok "a@b".toList ∧
    (search_emails none none "q2".toList emptyWorld).isError = true := by
  refine ⟨by decide, ?_, ?_⟩
  · exact (resolveIdentity_spec none (some "a@b".toList) (by decide)).1 _ rfl
  · rw [(resolveIdentity_spec none (some "a@b".toList)
      (by decide)).2.2.2.2 "q2".toList emptyWorld]

/-- Entries the function drops can be filtered away without changing a
filterMap. -/
theorem filterMap_filter_isSome {α β : Type} (f : α → Option β) :
    ∀ l : List α,
      (l.filter (fun a => (f a).isSome)).filterMap f = l.filterMap f := by
  intro l
  induction l with
  | nil => rfl
  | cons a rest ih =>
    cases hf : f a with
    | some b => simp [List.filter_cons, List.filterMap_cons, hf, ih]
    | none => simp [List.filter_cons, List.filterMap_cons, hf, ih]

/-- A backend world delivering a message whose only body part carries
malformed base64 data. -/
def malformedWorld : GmailWorld :=
  { auth := .ok ()
    listMessages := .ok { messages := none, resultSizeEstimate := none }
    getDetail := fun _ => .ok { payloadHeaders := none, snippet := none }
    getMessage := fun _ => .ok
      { payload := some (.mk (some "text/plain".toList) none none
          (some { attachmentId := none, size := none,
                  data := some "????QQ".toList }) none)
        labelIds := none }
    getAttachment := fun _ _ => .ok { size := none, data := none } }

/-- C3 (counterexample): the malformed base64 payload "????QQ" produces
no decode error at all — the decoder silently skips the invalid
characters and decodes the rest to "A", and the get_email handler
returns a normal success envelope, not an error result. -/
theorem malformed_base64_counterexample :
    decodeBase64Url "????QQ".toList = "A".toList ∧
    (get_email (some "admin@example.com".toList) none "m1".toList
      malformedWorld).isError = false := by
  decide

/-- C3 (amended): a malformed base64 payload cannot produce a decode
error: decoding is total and lenient — the result depends only on the
valid base64 alphabet characters occurring before the first padding
character, so any string decodes exactly like the filtered prefix of its
valid characters before the first '=' ("QQ=QQ" decodes to "A", stopping
at the padding, while the fully filtered "QQQQ" decodes to three bytes)
— and the get_email handler returns a success envelope for every fetched
message, however malformed its body data, so no decode failure can
reach (let alone escape) the handler boundary. -/
theorem decode_total_lenient_spec :
    (∀ s : Str, decodeBase64Url s =
      decodeBase64Url ((s.takeWhile (fun c => c != '=')).filter
        (fun c => (b64CharToSextet (urlFix c)).isSome))) ∧
    decodeBase64Url "QQ=QQ".toList = "A".toList ∧
    decodeBase64Url "QQQQ".toList = ['A', Char.ofNat 4, Char.ofNat 16] ∧
    (∀ (env ue : Option Str) (mid : Str) (w : GmailWorld) (r : Str)
      (msg : FullMessage), resolveUser env ue = .ok r → w.auth = .ok () →
      w.getMessage mid = .ok msg →
      (get_email env ue mid w).isError = false) := by
  refine ⟨?_, by decide, by decide, ?_⟩
  · intro s
    unfold decodeBase64Url base64DecodeBytes
    rw [map_urlFix_takeWhile s]
    rw [map_urlFix_takeWhile ((s.takeWhile (fun c => c != '=')).filter
      (fun c => (b64CharToSextet (urlFix c)).isSome))]
    have hall : ∀ c ∈ (s.takeWhile (fun c => c != '=')).filter
        (fun c => (b64CharToSextet (urlFix c)).isSome), (c != '=') = true := by
      intro c hc
      have hmem : c ∈ s.takeWhile (fun c => c != '=') :=
        List.mem_of_mem_filter hc
      have hp := List.mem_takeWhile_imp hmem
      exact hp
    rw [takeWhile_of_all _ _ hall]
    rw [List.filterMap_map, List.filterMap_map]
    simp only [Function.comp_def]
    rw [filterMap_filter_isSome (fun c => b64CharToSextet (urlFix c))
      (s.takeWhile (fun c => c != '='))]
  · intro env ue mid w r msg hres hauth hmsg
    have hok : ∃ e, getEmailTry env ue mid w = .ok e := by
      unfold getEmailTry
      simp only [bind, Except.bind, pure, Except.pure]
      rw [hres, hauth, hmsg]
      exact ⟨_, rfl⟩
    obtain ⟨e, he⟩ := hok
    unfold get_email
    rw [he]
    exact getEmailTry_ok env ue mid w e he

/-- Witness for the amended C3 at concrete inputs. -/
theorem decode_total_lenient_spec_witness :
    decodeBase64Url "a=b".toList =
      decodeBase64Url (("a=b".toList.takeWhile (fun c => c != '=')).filter
        (fun c => (b64CharToSextet (urlFix c)).isSome)) ∧
    (get_email (some "admin@example.com".toList) none "m2".toList
      emptyWorld).isError = false :=
  ⟨decode_total_lenient_spec.1 "a=b".toList,
   decode_total_lenient_spec.2.2.2 (some "admin@example.com".toList) none
     "m2".toList emptyWorld "admin@example.com".toList
     { payload := none, labelIds := none } rfl rfl rfl⟩
